import Mathlib

/-!
# Verification of the trace-analysis pipeline

Shallow embedding of the extraction-and-accounting pipeline of the
repository (scripts `4_extract_user_and_assistant_prompts.py` and
`5_analyze_prompts.py`), together with theorems settling the frozen
claims about it.

Python strings are modelled as `List Char`; the external subword
tokenizer is a parameter `tk : List Char → Nat`; values that may be a
string or Python `None`/NaN are `Option (List Char)`.
-/

set_option autoImplicit false

namespace TraceAnalysis

/-- Python `str.strip()` whitespace test, restricted to the ASCII
whitespace characters (space, \t, \n, \r, \v, \f) that can occur in the
traces handled here. -/
def isPyWs (c : Char) : Bool :=
  c = ' ' || c = '\t' || c = '\n' || c = '\r' || c = Char.ofNat 11 || c = Char.ofNat 12

/-- Python `s.strip()`: drop leading and trailing whitespace. -/
def pystrip (l : List Char) : List Char :=
  ((l.dropWhile isPyWs).reverse.dropWhile isPyWs).reverse

/-- The begin marker of `TOOL_RESULT_PATTERN` in `5_analyze_prompts.py`. -/
def beginMarker : List Char := "<tool_result>".toList

/-- The end marker of `TOOL_RESULT_PATTERN`. -/
def endMarker : List Char := "</tool_result>".toList

/-- The excluded inner marker literal checked by
`inner.startswith("<str-replace>")`. -/
def excludedMarker : List Char := "<str-replace>".toList

/-- Find the first occurrence of `pat` in a character list; return the
part before the occurrence and the part after it.  This is the leftmost
match of a literal pattern, as the `re` engine finds it. -/
def splitAtSub (pat : List Char) : List Char → Option (List Char × List Char)
  | [] => if pat.isPrefixOf ([] : List Char) then some ([], []) else none
  | c :: rest =>
      if pat.isPrefixOf (c :: rest) then some ([], (c :: rest).drop pat.length)
      else (splitAtSub pat rest).map (fun p => (c :: p.1, p.2))

/-- `INNER_TAG_PATTERN` character class `[a-zA-Z0-9\-_]`. -/
def isTagChar (c : Char) : Bool :=
  (('a' ≤ c && c ≤ 'z') || ('A' ≤ c && c ≤ 'Z') || ('0' ≤ c && c ≤ '9')
    || c = '-' || c = '_')

/-- `INNER_TAG_PATTERN.search`: the group of the leftmost match of
`<([a-zA-Z0-9\-_]+)>`.  At each `<` the engine reads the maximal run of
tag characters; the match succeeds when that run is non-empty and is
followed by `>`; otherwise the scan resumes at the next position. -/
def findInnerTag : List Char → Option (List Char)
  | [] => none
  | c :: rest =>
      if c = '<' then
        let run := rest.takeWhile isTagChar
        if run ≠ [] ∧ (rest.drop run.length).headD ' ' = '>' then some run
        else findInnerTag rest
      else findInnerTag rest

/-- One step of `TOOL_RESULT_PATTERN.findall`: find the leftmost begin
marker, pair it with the nearest following end marker (lazy `(.*?)`),
capture the text between, continue after the end marker.  `fuel` bounds
the recursion; `findToolResults` supplies the input length, which is
ample since every step consumes at least one marker pair. -/
def findToolResultsFuel : Nat → List Char → List (List Char)
  | 0, _ => []
  | fuel + 1, l =>
      match splitAtSub beginMarker l with
      | none => []
      | some (_, afterBegin) =>
          match splitAtSub endMarker afterBegin with
          | none => []
          | some (inner, afterEnd) => inner :: findToolResultsFuel fuel afterEnd

/-- `TOOL_RESULT_PATTERN.findall(prompt)`: the captured groups of all
non-overlapping lazy matches of `<tool_result>(.*?)</tool_result>`. -/
def findToolResults (l : List Char) : List (List Char) :=
  findToolResultsFuel l.length l

/-- The body of the `for m in matches` loop of `analyze_tool_calls`,
acting on the running state `(total_tool_tokens, tool_type)`. -/
def toolStep (tk : List Char → Nat) (st : Nat × Option (List Char)) (m : List Char) :
    Nat × Option (List Char) :=
  let inner := pystrip m
  if excludedMarker.isPrefixOf inner then st
  else
    match findInnerTag inner with
    | none => st
    | some tag =>
        (st.1 + tk inner, match st.2 with
          | none => some tag
          | some t => some t)

/-- The loop of `analyze_tool_calls` over the list of matches. -/
def processMatches (tk : List Char → Nat) (ms : List (List Char)) :
    Nat × Option (List Char) :=
  ms.foldl (toolStep tk) (0, none)

/-- `analyze_tool_calls(prompt, enc)`: `(total_tool_tokens, first_tool_type)`.
A non-string prompt (`None`) yields `(0, None)`. -/
def analyze_tool_calls (tk : List Char → Nat) : Option (List Char) →
    Nat × Option (List Char)
  | none => (0, none)
  | some prompt => processMatches tk (findToolResults prompt)

/-- `count_tokens(text, enc)`: 0 on a non-string input, otherwise the
tokenizer count. -/
def count_tokens (tk : List Char → Nat) : Option (List Char) → Nat
  | none => 0
  | some s => tk s

/-- The `inner_tag` of the first non-excluded block that has a
non-absent tag (spec §4.4 wording), over the match list. -/
def firstTaggedType (ms : List (List Char)) : Option (List Char) :=
  ms.findSome? (fun m =>
    if excludedMarker.isPrefixOf (pystrip m) then none
    else findInnerTag (pystrip m))

/-- The tool-token sum as the SPEC words it (§4.4): the sum of
`count_tokens(block.raw_text)` over all non-excluded blocks, with no
requirement that the block contain an inner tag.  Stated for comparison
with `analyze_tool_calls`, which settles whether the code refines it. -/
def specToolTokens (tk : List Char → Nat) (text : List Char) : Nat :=
  (((findToolResults text).map pystrip).filter
      (fun inner => !(excludedMarker.isPrefixOf inner))).foldl
    (fun a inner => a + tk inner) 0

/-- Concrete text used to separate the code from the spec wording: one
well-formed block whose inner content has no tag pattern. -/
def noTagText : List Char := "<tool_result>hello</tool_result>".toList

/-- The first component of the loop state after processing `ms` is the
starting total plus the tokenizer counts of exactly the trimmed,
non-excluded, tagged inner contents. -/
theorem foldl_toolStep_fst (tk : List Char → Nat) (ms : List (List Char)) :
    ∀ (n : Nat) (ty : Option (List Char)),
      (ms.foldl (toolStep tk) (n, ty)).1 =
        n + ((((ms.map pystrip).filter
            (fun inner => !(excludedMarker.isPrefixOf inner)
              && (findInnerTag inner).isSome)).map tk).sum) := by
  induction ms with
  | nil => intro n ty; simp
  | cons m ms ih =>
      intro n ty
      by_cases hex : excludedMarker.isPrefixOf (pystrip m)
      · simp [toolStep, hex, ih]
      · cases htag : findInnerTag (pystrip m) with
        | none => simp [toolStep, hex, htag, ih]
        | some tag =>
            simp only [List.foldl_cons, toolStep, hex, htag, if_false, List.map_cons,
              List.filter_cons, Bool.not_false, Option.isSome_some, Bool.and_true,
              Bool.not_eq_true', List.map, List.sum_cons, ih]
            simp [hex]
            omega

/-- Once `tool_type` is set, no later iteration changes it. -/
theorem foldl_toolStep_snd_some (tk : List Char → Nat) (ms : List (List Char)) :
    ∀ (n : Nat) (t : List Char),
      (ms.foldl (toolStep tk) (n, some t)).2 = some t := by
  induction ms with
  | nil => intro n t; rfl
  | cons m ms ih =>
      intro n t
      by_cases hex : excludedMarker.isPrefixOf (pystrip m)
      · simp [toolStep, hex, ih]
      · cases htag : findInnerTag (pystrip m) with
        | none => simp [toolStep, hex, htag, ih]
        | some tag => simp [toolStep, hex, htag, ih]

/-- Starting from an absent `tool_type`, the loop computes the tag of
the first non-excluded tagged block. -/
theorem foldl_toolStep_snd_none (tk : List Char → Nat) (ms : List (List Char)) :
    ∀ (n : Nat), (ms.foldl (toolStep tk) (n, none)).2 = firstTaggedType ms := by
  induction ms with
  | nil => intro n; rfl
  | cons m ms ih =>
      intro n
      by_cases hex : excludedMarker.isPrefixOf (pystrip m)
      · have hex2 : excludedMarker <+: pystrip m := List.isPrefixOf_iff_prefix.mp hex
        simp [toolStep, hex, ih, firstTaggedType, List.findSome?_cons, hex2]
      · have hex2 : ¬ excludedMarker <+: pystrip m := fun hp =>
          hex (List.isPrefixOf_iff_prefix.mpr hp)
        cases htag : findInnerTag (pystrip m) with
        | none =>
            simp [toolStep, hex, htag, ih, firstTaggedType, List.findSome?_cons, hex2]
        | some tag =>
            simp [toolStep, hex, htag, firstTaggedType, List.findSome?_cons,
              foldl_toolStep_snd_some, hex2]

/-- If no occurrence of `pat` exists in `l`, the split finds none. -/
theorem splitAtSub_eq_none {pat l : List Char}
    (h : ∀ pre post, l ≠ pre ++ pat ++ post) : splitAtSub pat l = none := by
  induction l with
  | nil =>
      have hpat : pat ≠ [] := by
        intro hp
        exact h [] [] (by simp [hp])
      cases pat with
      | nil => exact absurd rfl hpat
      | cons a as => simp [splitAtSub, List.isPrefixOf]
  | cons c rest ih =>
      have hnp : ¬ pat.isPrefixOf (c :: rest) = true := by
        intro hp
        obtain ⟨t, ht⟩ := List.isPrefixOf_iff_prefix.mp hp
        exact h [] t (by simp [← ht])
      have hrest : splitAtSub pat rest = none := by
        apply ih
        intro pre post hr
        exact h (c :: pre) post (by simp [hr])
      simp [splitAtSub, hnp, hrest]

/-- If the text has no begin-marker occurrence, no block is found. -/
theorem findToolResults_eq_nil {text : List Char}
    (h : ∀ pre post, text ≠ pre ++ beginMarker ++ post) :
    findToolResults text = [] := by
  have hsplit : splitAtSub beginMarker text = none := splitAtSub_eq_none h
  unfold findToolResults
  cases text.length with
  | zero => rfl
  | succ n => simp [findToolResultsFuel, hsplit]

/-- C1 counterexample.  The text holds one well-formed, non-excluded
tool-result block whose inner content `hello` contains no inner tag
pattern.  The claim says the block's token count is still included in
`tool_tokens`; the code's `if not tag_match: continue` skips it, so
`tool_tokens = 0` while the spec-worded sum over all non-excluded
blocks is 5 (with the length tokenizer). -/
theorem noTag_block_token_not_counted :
    (analyze_tool_calls List.length (some noTagText)).1 = 0 ∧
    findToolResults noTagText = ["hello".toList] ∧
    excludedMarker.isPrefixOf (pystrip "hello".toList) = false ∧
    findInnerTag (pystrip "hello".toList) = none ∧
    specToolTokens List.length noTagText = 5 := by
  refine ⟨by decide, by decide, by decide, by decide, by decide⟩

/-- C1 (amended): a non-excluded block with no inner tag pattern is
skipped by `analyze_tool_calls`: it contributes neither token count nor
type classification, and `tool_tokens` is the sum of tokenizer counts
over exactly the trimmed non-excluded blocks that contain an inner tag. -/
theorem tool_tokens_counts_only_tagged_blocks (tk : List Char → Nat) (text : List Char) :
    (analyze_tool_calls tk (some text)).1 =
      ((((findToolResults text).map pystrip).filter
          (fun inner => !(excludedMarker.isPrefixOf inner)
            && (findInnerTag inner).isSome)).map tk).sum := by
  simpa [analyze_tool_calls, processMatches]
    using foldl_toolStep_fst tk (findToolResults text) 0 none

/-- C5: `tool_type` is the inner tag of the first non-excluded block
(in order of occurrence) that has a non-absent tag, absent when no such
block exists; and a text containing zero begin markers yields
`tool_tokens = 0` and `tool_type` absent. -/
theorem first_tagged_type_and_no_marker (tk : List Char → Nat) (text : List Char) :
    (analyze_tool_calls tk (some text)).2 = firstTaggedType (findToolResults text) ∧
    ((∀ pre post, text ≠ pre ++ beginMarker ++ post) →
      analyze_tool_calls tk (some text) = (0, none)) := by
  constructor
  · exact foldl_toolStep_snd_none tk (findToolResults text) 0
  · intro h
    simp [analyze_tool_calls, findToolResults_eq_nil h, processMatches]

/-- Witness for C5 at the empty text, which contains no begin marker. -/
theorem first_tagged_type_and_no_marker_witness :
    (∀ pre post, ([] : List Char) ≠ pre ++ beginMarker ++ post) ∧
    analyze_tool_calls List.length (some []) = (0, none) := by
  have hnb : ∀ pre post, ([] : List Char) ≠ pre ++ beginMarker ++ post := by
    intro pre post heq
    have h2 := congrArg List.length heq
    have h3 : beginMarker.length = 13 := by decide
    simp [List.length_append, h3] at h2
    omega
  exact ⟨hnb, (first_tagged_type_and_no_marker List.length []).2 hnb⟩

/-- Skipping the excluded blocks before the loop does not change the
loop's result, from any starting state. -/
theorem foldl_toolStep_filter (tk : List Char → Nat) (ms : List (List Char)) :
    ∀ st : Nat × Option (List Char),
      ms.foldl (toolStep tk) st =
        (ms.filter (fun m => !(excludedMarker.isPrefixOf (pystrip m)))).foldl
          (toolStep tk) st := by
  induction ms with
  | nil => intro st; rfl
  | cons m ms ih =>
      intro st
      by_cases hex : excludedMarker.isPrefixOf (pystrip m)
      · have hstep : toolStep tk st m = st := by simp [toolStep, hex]
        simp [List.filter_cons, hex, hstep, ih]
      · simp [List.filter_cons, hex, ih]

/-- C6: a well-formed block whose trimmed inner content starts with the
excluded marker `<str-replace>` is discarded: the analysis returns
exactly what it returns on the match list with all excluded blocks
filtered out, so such a block contributes nothing to `tool_tokens` and
can never become the row's `tool_type` (and hence contributes to no
downstream total or type tally, which depend only on those two values). -/
theorem excluded_blocks_contribute_nothing (tk : List Char → Nat) (text : List Char) :
    analyze_tool_calls tk (some text) =
      processMatches tk ((findToolResults text).filter
        (fun m => !(excludedMarker.isPrefixOf (pystrip m)))) :=
  foldl_toolStep_filter tk (findToolResults text) (0, none)

/-- C10: a row with absent `tool_type` has `tool_tokens = 0`: tokens
are only ever added by blocks that are non-excluded and contain an
inner tag pattern, and any such block also sets `tool_type`, so a
positive `tool_tokens` forces a non-absent `tool_type`. -/
theorem absent_tool_type_zero_tokens (tk : List Char → Nat) (p : Option (List Char))
    (h : (analyze_tool_calls tk p).2 = none) :
    (analyze_tool_calls tk p).1 = 0 := by
  cases p with
  | none => rfl
  | some text =>
      have h2 : firstTaggedType (findToolResults text) = none := by
        rw [← foldl_toolStep_snd_none tk (findToolResults text) 0]
        exact h
      have h3 := List.findSome?_eq_none_iff.mp h2
      have h4 : ((findToolResults text).map pystrip).filter
          (fun inner => !(excludedMarker.isPrefixOf inner)
            && (findInnerTag inner).isSome) = [] := by
        rw [List.filter_eq_nil_iff]
        intro inner hmem
        obtain ⟨m, hm, rfl⟩ := List.mem_map.mp hmem
        have h5 := h3 m hm
        by_cases hex : excludedMarker.isPrefixOf (pystrip m)
        · simp [hex]
        · have hex2 : ¬ excludedMarker <+: pystrip m := fun hp =>
            hex (List.isPrefixOf_iff_prefix.mpr hp)
          simp [hex2] at h5
          simp [hex, h5]
      have h6 := foldl_toolStep_fst tk (findToolResults text) 0 none
      show (processMatches tk (findToolResults text)).1 = 0
      unfold processMatches
      rw [h6, h4]
      rfl

/-- Witness for C10: a one-character text with no blocks. -/
theorem absent_tool_type_zero_tokens_witness :
    (analyze_tool_calls List.length (some ('x' :: []))).2 = none ∧
    (analyze_tool_calls List.length (some ('x' :: []))).1 = 0 :=
  ⟨by decide, absent_tool_type_zero_tokens List.length (some ('x' :: [])) (by decide)⟩

/-! ## Aggregation & reporting (`overall_stats`, `analyze_by_file_path`) -/

/-- One row of the enriched corpus: the columns `file_path`,
`num_token`, `num_token_from_toolcall` and `tool_type` used by the
aggregation stage (`text` and `role` are not consulted by the claims
below). -/
structure AggRow where
  file_path : List Char
  num_token : Nat
  num_token_from_toolcall : Nat
  tool_type : Option (List Char)
  deriving DecidableEq

/-- `df["num_token"].sum()`. -/
def totalSum (df : List AggRow) : Nat :=
  df.foldl (fun a r => a + r.num_token) 0

/-- `df["num_token_from_toolcall"].sum()`. -/
def toolSum (df : List AggRow) : Nat :=
  df.foldl (fun a r => a + r.num_token_from_toolcall) 0

/-- `pct_tool` of `overall_stats`:
`tool_token / total_token * 100 if total_token > 0 else 0.0`. -/
def pct_tool (df : List AggRow) : ℚ :=
  if 0 < totalSum df then (toolSum df : ℚ) / (totalSum df : ℚ) * 100 else 0

/-- The global ratio as the SPEC words it (§4.5): `100 * sum(tool_tokens)
/ sum(total_tokens)`, 0 when the denominator is 0. -/
def spec_global_pct (df : List AggRow) : ℚ :=
  if totalSum df = 0 then 0
  else 100 * (toolSum df : ℚ) / (totalSum df : ℚ)

/-- A pandas float cell as the per-conversation division produces it:
a rational value, or `NaN` (from `0 / 0`), or `+inf` (from `x / 0`,
`x > 0`). -/
inductive PctVal where
  | nan
  | inf
  | val (q : ℚ)
  deriving DecidableEq

/-- `group["num_token"].sum()` for the group of rows of one `file_path`. -/
def convTotal (df : List AggRow) (fp : List Char) : Nat :=
  totalSum (df.filter (fun r => r.file_path = fp))

/-- `group["num_token_from_toolcall"].sum()` for one `file_path`. -/
def convTool (df : List AggRow) (fp : List Char) : Nat :=
  toolSum (df.filter (fun r => r.file_path = fp))

/-- `tool_call_token_pct` for one conversation:
`group["num_token_from_toolcall"].sum() / group["num_token"].sum() * 100`,
with pandas semantics for a zero denominator (`0/0 = NaN`,
`x/0 = +inf`). -/
def convPct (df : List AggRow) (fp : List Char) : PctVal :=
  if convTotal df fp = 0 then
    (if convTool df fp = 0 then .nan else .inf)
  else .val ((convTool df fp : ℚ) / (convTotal df fp : ℚ) * 100)

/-- `pd.cut(x, bins=[0,20,40,60,80,100], right=True)`: the half-open
buckets `(0,20], (20,40], (40,60], (60,80], (80,100]`; values outside
every bucket (including `NaN` and `inf`) get no bin. -/
def rangeBin : PctVal → Option (Fin 5)
  | .val q =>
      if 0 < q ∧ q ≤ 20 then some 0
      else if 20 < q ∧ q ≤ 40 then some 1
      else if 40 < q ∧ q ≤ 60 then some 2
      else if 60 < q ∧ q ≤ 80 then some 3
      else if 80 < q ∧ q ≤ 100 then some 4
      else none
  | _ => none

/-- String comparison on code points, as Python compares `str` keys. -/
def strLt : List Char → List Char → Bool
  | _, [] => false
  | [], _ :: _ => true
  | a :: as, b :: bs => if a < b then true else if b < a then false else strLt as bs

/-- Insert a key into a sorted distinct key list (the sorted group keys
that `groupby` produces). -/
def insertKeySorted (k : List Char) : List (List Char) → List (List Char)
  | [] => [k]
  | k2 :: rest =>
      if k = k2 then k2 :: rest
      else if strLt k k2 then k :: k2 :: rest
      else k2 :: insertKeySorted k rest

/-- The group keys of `df.groupby("file_path")`: the distinct
`file_path` values, in sorted order. -/
def groupKeys (df : List AggRow) : List (List Char) :=
  df.foldl (fun acc r => insertKeySorted r.file_path acc) []

/-- `value_counts()` of one bucket of `range_bin` over the
per-conversation percentages. -/
def bucketCount (df : List AggRow) (i : Fin 5) : Nat :=
  (groupKeys df).countP (fun k => rangeBin (convPct df k) = some i)

/-- The total of the five reported bucket counts. -/
def sumBuckets (df : List AggRow) : Nat :=
  bucketCount df 0 + bucketCount df 1 + bucketCount df 2
    + bucketCount df 3 + bucketCount df 4

/-- A defined percentage lying in some bucket: a rational value with
`0 < q ≤ 100`. -/
def inBucketRange : PctVal → Bool
  | .val q => decide (0 < q) && decide (q ≤ 100)
  | _ => false

/-- The number of conversations whose `tool_call_token_pct` is defined
(non-NaN). -/
def definedPctCount (df : List AggRow) : Nat :=
  (groupKeys df).countP (fun k => convPct df k ≠ PctVal.nan)

/-- Add `v` to the entry of `key` in a sorted association list,
inserting the key at its sorted position when new.  This reproduces the
per-`(file_path, tool_type)` sums of
`groupby(["file_path","tool_type"]).sum()`, whose keys come out sorted. -/
def addToSorted (key : List Char) (v : Nat) :
    List (List Char × Nat) → List (List Char × Nat)
  | [] => [(key, v)]
  | (k, s) :: rest =>
      if key = k then (k, s + v) :: rest
      else if strLt key k then (key, v) :: (k, s) :: rest
      else (k, s) :: addToSorted key v rest

/-- Fold step building the per-tool-type sums of one conversation,
restricted (as the code restricts with `df["tool_type"].notna()`) to
rows with a non-absent `tool_type`. -/
def toolTypeStep (fp : List Char) (acc : List (List Char × Nat)) (r : AggRow) :
    List (List Char × Nat) :=
  if r.file_path = fp then
    match r.tool_type with
    | some t => addToSorted t r.num_token_from_toolcall acc
    | none => acc
  else acc

/-- `tool_type_by_file` restricted to one `file_path`: summed
`num_token_from_toolcall` per tool type, keys in sorted order. -/
def toolTypeSums (df : List AggRow) (fp : List Char) : List (List Char × Nat) :=
  df.foldl (toolTypeStep fp) []

/-- The scan of `idxmax`: keep the current best entry, replacing it
only on a strictly larger value, so the first occurrence of the maximum
wins. -/
def idxmaxFrom (bk : List Char) (bv : Nat) :
    List (List Char × Nat) → List Char × Nat
  | [] => (bk, bv)
  | (k, v) :: rest => if bv < v then idxmaxFrom k v rest else idxmaxFrom bk bv rest

/-- `idxmax()` over one conversation's per-type sums: the key of the
first entry attaining the maximal sum (pandas raises on an empty
series; such conversations never reach this point). -/
def idxmaxSums : List (List Char × Nat) → Option (List Char × Nat)
  | [] => none
  | (k, v) :: rest => some (idxmaxFrom k v rest)

/-- `dominant_tool_type` for one conversation. -/
def dominantToolType (df : List AggRow) (fp : List Char) : Option (List Char) :=
  (idxmaxSums (toolTypeSums df fp)).map (fun p => p.1)

/-- A row whose prompt produced no tokens at all (e.g. a NaN cell):
both sums of its conversation are 0. -/
def zeroRow : AggRow := ⟨['a'], 0, 0, none⟩

/-- A conversation with tokens but no tool calls: its percentage is a
defined 0. -/
def noToolRow : AggRow := ⟨['a'], 10, 0, none⟩

/-- A conversation with total 4 tokens, 1 from tool calls. -/
def quarterRow : AggRow := ⟨['a'], 4, 1, none⟩

/-- C3 counterexample: for a conversation whose token sums are both 0,
the pandas division `0 / 0` yields `NaN`, not the 0 the claim
requires. -/
theorem conv_pct_nan_when_denominator_zero :
    convTotal [zeroRow] ['a'] = 0 ∧
    convPct [zeroRow] ['a'] = PctVal.nan ∧
    PctVal.nan ≠ PctVal.val 0 := by
  have h1 : convTotal [zeroRow] ['a'] = 0 := by decide
  have h2 : convTool [zeroRow] ['a'] = 0 := by decide
  have h3 : convPct [zeroRow] ['a'] = PctVal.nan := by
    unfold convPct
    rw [h1, h2]
    simp
  exact ⟨h1, h3, by intro h; cases h⟩

/-- C3 (amended): the global ratio equals the spec formula
(`100 * sum / sum`, 0 when the denominator is 0); the per-conversation
percentage equals `100 * sum / sum` whenever its denominator is
positive, but a zero denominator produces `NaN` (or `+inf` when the
numerator is positive), not 0, and such conversations have no defined
percentage. -/
theorem pct_formulas (df : List AggRow) (fp : List Char) :
    pct_tool df = spec_global_pct df ∧
    (convTotal df fp ≠ 0 →
      convPct df fp
        = PctVal.val (100 * (convTool df fp : ℚ) / (convTotal df fp : ℚ))) ∧
    (convTotal df fp = 0 → convTool df fp = 0 → convPct df fp = PctVal.nan) ∧
    (convTotal df fp = 0 → convTool df fp ≠ 0 → convPct df fp = PctVal.inf) := by
  refine ⟨?_, ?_, ?_, ?_⟩
  · unfold pct_tool spec_global_pct
    rcases Nat.eq_zero_or_pos (totalSum df) with h | h
    · simp [h]
    · have h2 : totalSum df ≠ 0 := Nat.pos_iff_ne_zero.mp h
      simp only [h, if_true, h2, if_false]
      ring
  · intro h
    simp only [convPct, h, if_false]
    congr 1
    ring
  · intro h1 h2
    simp [convPct, h1, h2]
  · intro h1 h2
    simp [convPct, h1, h2]

/-- Witness for C3 at a conversation with a positive denominator. -/
theorem pct_formulas_witness :
    convTotal [quarterRow] ['a'] ≠ 0 ∧
    convPct [quarterRow] ['a'] = PctVal.val 25 := by
  have h : convTotal [quarterRow] ['a'] ≠ 0 := by decide
  refine ⟨h, ?_⟩
  have h2 := (pct_formulas [quarterRow] ['a']).2.1 h
  have h3 : convTool [quarterRow] ['a'] = 1 := by decide
  have h4 : convTotal [quarterRow] ['a'] = 4 := by decide
  rw [h2, h3, h4]
  congr 1
  norm_num

/-- The bin of a value is defined exactly when the value is a defined
rational in `(0, 100]`. -/
theorem rangeBin_isSome (v : PctVal) : (rangeBin v).isSome = inBucketRange v := by
  cases v with
  | nan => rfl
  | inf => rfl
  | val q =>
      simp only [rangeBin, inBucketRange]
      split_ifs with h1 h2 h3 h4 h5
      · simp [h1.1, show q ≤ 100 by linarith [h1.2]]
      · simp [show 0 < q by linarith [h2.1], show q ≤ 100 by linarith [h2.2]]
      · simp [show 0 < q by linarith [h3.1], show q ≤ 100 by linarith [h3.2]]
      · simp [show 0 < q by linarith [h4.1], show q ≤ 100 by linarith [h4.2]]
      · simp [show 0 < q by linarith [h5.1], h5.2]
      · have hq : ¬ (0 < q ∧ q ≤ 100) := by
          rintro ⟨hq0, hq100⟩
          have h20 : 20 < q := by
            by_contra hle; push_neg at hle; exact h1 ⟨hq0, hle⟩
          have h40 : 40 < q := by
            by_contra hle; push_neg at hle; exact h2 ⟨h20, hle⟩
          have h60 : 60 < q := by
            by_contra hle; push_neg at hle; exact h3 ⟨h40, hle⟩
          have h80 : 80 < q := by
            by_contra hle; push_neg at hle; exact h4 ⟨h60, hle⟩
          exact h5 ⟨h80, hq100⟩
        cases hd0 : decide (0 < q) with
        | false => simp
        | true =>
            have hq0 : 0 < q := of_decide_eq_true hd0
            have hle : ¬ q ≤ 100 := fun hle => hq ⟨hq0, hle⟩
            simp [hle]

/-- Summing indicator counts over the five bins counts exactly the
keys whose value falls in some bin. -/
theorem countP_bins (f : List Char → PctVal) (keys : List (List Char)) :
    keys.countP (fun k => rangeBin (f k) = some 0)
      + keys.countP (fun k => rangeBin (f k) = some 1)
      + keys.countP (fun k => rangeBin (f k) = some 2)
      + keys.countP (fun k => rangeBin (f k) = some 3)
      + keys.countP (fun k => rangeBin (f k) = some 4)
      = keys.countP (fun k => inBucketRange (f k)) := by
  induction keys with
  | nil => rfl
  | cons k ks ih =>
      simp only [List.countP_cons]
      have hbin := rangeBin_isSome (f k)
      cases hb : rangeBin (f k) with
      | none =>
          rw [hb] at hbin
          simp only [Option.isSome_none] at hbin
          simp [hb, ← hbin]
          omega
      | some j =>
          rw [hb] at hbin
          simp only [Option.isSome_some] at hbin
          fin_cases j <;> simp [hb, ← hbin] <;> omega

/-- C4 counterexample: a conversation with tokens but no tool tokens
has the defined percentage 0, which lies in no half-open bucket; the
bucket counts sum to 0 while one conversation has a defined (non-NaN)
percentage. -/
theorem bucket_sum_misses_zero_pct :
    convPct [noToolRow] ['a'] = PctVal.val 0 ∧
    definedPctCount [noToolRow] = 1 ∧
    sumBuckets [noToolRow] = 0 := by
  have h1 : convTotal [noToolRow] ['a'] = 10 := by decide
  have h2 : convTool [noToolRow] ['a'] = 0 := by decide
  have hpct : convPct [noToolRow] ['a'] = PctVal.val 0 := by
    unfold convPct
    rw [h1, h2]
    norm_num
  have hkeys : groupKeys [noToolRow] = [['a']] := by decide
  have hbin : rangeBin (PctVal.val 0) = none := by
    simp only [rangeBin]
    norm_num
  refine ⟨hpct, ?_, ?_⟩
  · simp only [definedPctCount, hkeys, List.countP_cons, List.countP_nil, hpct]
    simp
  · simp only [sumBuckets, bucketCount, hkeys, List.countP_cons, List.countP_nil, hpct, hbin]
    simp

/-- C4 (amended): the five bucket counts sum exactly to the number of
conversations whose `tool_call_token_pct` is a defined rational in
`(0, 100]`; conversations with percentage 0, above 100, or undefined
(NaN) are in no bucket. -/
theorem bucket_sum_counts_in_range (df : List AggRow) :
    sumBuckets df
      = (groupKeys df).countP (fun k => inBucketRange (convPct df k)) ∧
    ∀ v : PctVal, (rangeBin v).isSome = inBucketRange v :=
  ⟨countP_bins (convPct df) (groupKeys df), rangeBin_isSome⟩

/-- The running best value of the `idxmax` scan never decreases. -/
theorem idxmaxFrom_le (l : List (List Char × Nat)) :
    ∀ (bk : List Char) (bv : Nat), bv ≤ (idxmaxFrom bk bv l).2 := by
  induction l with
  | nil => intro bk bv; exact Nat.le_refl bv
  | cons p l ih =>
      intro bk bv
      obtain ⟨k, v⟩ := p
      simp only [idxmaxFrom]
      by_cases h : bv < v
      · simp only [h, if_true]
        exact Nat.le_trans (Nat.le_of_lt h) (ih k v)
      · simp only [h, if_false]
        exact ih bk bv

/-- The `idxmax` scan result bounds every entry it has seen. -/
theorem idxmaxFrom_max (l : List (List Char × Nat)) :
    ∀ (bk : List Char) (bv : Nat) (p : List Char × Nat),
      p ∈ (bk, bv) :: l → p.2 ≤ (idxmaxFrom bk bv l).2 := by
  induction l with
  | nil =>
      intro bk bv p hp
      rcases List.mem_singleton.mp hp with rfl
      exact Nat.le_refl bv
  | cons q l ih =>
      intro bk bv p hp
      obtain ⟨k, v⟩ := q
      simp only [idxmaxFrom]
      by_cases h : bv < v
      · simp only [h, if_true]
        rcases List.mem_cons.mp hp with rfl | hp2
        · exact Nat.le_trans (Nat.le_of_lt h) (idxmaxFrom_le l k v)
        · exact ih k v p hp2
      · simp only [h, if_false]
        rcases List.mem_cons.mp hp with rfl | hp2
        · exact idxmaxFrom_le l bk bv
        · rcases List.mem_cons.mp hp2 with rfl | hp3
          · exact Nat.le_trans (Nat.le_of_not_lt h) (idxmaxFrom_le l bk bv)
          · exact ih bk bv p (List.mem_cons_of_mem _ hp3)

/-- The `idxmax` scan returns the first entry attaining the maximum:
searching the scanned list for the first entry whose value reaches the
final best value finds exactly the scan's result. -/
theorem idxmaxFrom_find (l : List (List Char × Nat)) :
    ∀ (bk : List Char) (bv : Nat),
      ((bk, bv) :: l).find? (fun p => decide ((idxmaxFrom bk bv l).2 ≤ p.2))
        = some (idxmaxFrom bk bv l) := by
  induction l with
  | nil =>
      intro bk bv
      simp [idxmaxFrom, List.find?_cons]
  | cons q l ih =>
      intro bk bv
      obtain ⟨k, v⟩ := q
      by_cases h : bv < v
      · simp only [idxmaxFrom, h, if_true]
        have hv : v ≤ (idxmaxFrom k v l).2 := idxmaxFrom_le l k v
        have hbv : ¬ ((idxmaxFrom k v l).2 ≤ bv) := by omega
        rw [List.find?_cons]
        simp only [hbv, decide_eq_true_eq, if_false]
        · exact ih k v
      · simp only [idxmaxFrom, h, if_false]
        have hvbv : v ≤ bv := Nat.le_of_not_lt h
        have hih := ih bk bv
        by_cases hb : (idxmaxFrom bk bv l).2 ≤ bv
        · rw [List.find?_cons] at hih ⊢
          simp only [hb, decide_eq_true_eq, if_true] at hih ⊢
          exact hih
        · have hvb : ¬ ((idxmaxFrom bk bv l).2 ≤ v) := by omega
          rw [List.find?_cons] at hih ⊢
          simp only [hb, decide_eq_true_eq, if_false] at hih
          simp only [hb, hvb, decide_eq_true_eq, if_false]
          rw [List.find?_cons]
          simp only [hvb, decide_eq_true_eq, if_false]
          exact hih

/-- Inserting into the sorted sums never produces the empty list. -/
theorem addToSorted_ne_nil (key : List Char) (v : Nat)
    (acc : List (List Char × Nat)) : addToSorted key v acc ≠ [] := by
  cases acc with
  | nil => simp [addToSorted]
  | cons p rest =>
      obtain ⟨k, s⟩ := p
      simp only [addToSorted]
      split_ifs <;> simp

/-- The per-type-sum fold never empties a non-empty accumulator. -/
theorem foldl_toolTypeStep_ne_nil (fp : List Char) (ms : List AggRow) :
    ∀ acc, acc ≠ [] → ms.foldl (toolTypeStep fp) acc ≠ [] := by
  induction ms with
  | nil => intro acc h; exact h
  | cons r ms ih =>
      intro acc h
      apply ih
      unfold toolTypeStep
      by_cases h1 : r.file_path = fp
      · cases ht : r.tool_type with
        | some t => simp [h1, ht, addToSorted_ne_nil]
        | none => simp [h1, ht, h]
      · simp [h1, h]

/-- A conversation with at least one row carrying a non-absent
`tool_type` has a non-empty per-type sum series. -/
theorem toolTypeSums_ne_nil (fp : List Char) :
    ∀ df : List AggRow,
      (∃ r ∈ df, r.file_path = fp ∧ r.tool_type ≠ none) →
      toolTypeSums df fp ≠ [] := by
  intro df
  induction df with
  | nil =>
      rintro ⟨r, hr, _⟩
      exact absurd hr (List.not_mem_nil r)
  | cons r0 df ih =>
      intro h
      show List.foldl (toolTypeStep fp) (toolTypeStep fp [] r0) df ≠ []
      by_cases hm : r0.file_path = fp ∧ r0.tool_type ≠ none
      · obtain ⟨hm1, hm2⟩ := hm
        cases ht : r0.tool_type with
        | none => exact absurd ht hm2
        | some t =>
            apply foldl_toolTypeStep_ne_nil
            simp only [toolTypeStep, hm1, if_true, ht]
            exact addToSorted_ne_nil t r0.num_token_from_toolcall []
      · have hstep : toolTypeStep fp [] r0 = [] := by
          unfold toolTypeStep
          by_cases h1 : r0.file_path = fp
          · cases ht : r0.tool_type with
            | none => simp [h1, ht]
            | some t => exact absurd ⟨h1, by simp [ht]⟩ hm
          · simp [h1]
        rw [hstep]
        apply ih
        obtain ⟨r, hr, hprop⟩ := h
        rcases List.mem_cons.mp hr with rfl | hr2
        · exact absurd hprop hm
        · exact ⟨r, hr2, hprop⟩

/-- C8: for every conversation with at least one row of non-absent
`tool_type`, the dominant tool type is a type whose summed
`tool_tokens` over the conversation is maximal, and among the entries
of the summed series (in its stable iteration order) it is the first
one attaining that maximum, so ties break to the first-encountered
type. -/
theorem dominant_type_is_first_argmax (df : List AggRow) (fp : List Char)
    (h : ∃ r ∈ df, r.file_path = fp ∧ r.tool_type ≠ none) :
    ∃ t s, dominantToolType df fp = some t ∧
      (t, s) ∈ toolTypeSums df fp ∧
      (∀ p ∈ toolTypeSums df fp, p.2 ≤ s) ∧
      (toolTypeSums df fp).find? (fun p => decide (s ≤ p.2)) = some (t, s) := by
  have hne : toolTypeSums df fp ≠ [] := toolTypeSums_ne_nil fp df h
  cases hsums : toolTypeSums df fp with
  | nil => exact absurd hsums hne
  | cons hd tl =>
      obtain ⟨k0, v0⟩ := hd
      refine ⟨(idxmaxFrom k0 v0 tl).1, (idxmaxFrom k0 v0 tl).2, ?_, ?_, ?_, ?_⟩
      · simp [dominantToolType, hsums, idxmaxSums]
      · rw [Prod.mk.eta]
        exact List.mem_of_find?_eq_some (idxmaxFrom_find tl k0 v0)
      · intro p hp
        exact idxmaxFrom_max tl k0 v0 p hp
      · simpa using idxmaxFrom_find tl k0 v0

/-- Two rows of one conversation with tied per-type sums: the types
sort as `bash < read-file`, so the tie breaks to `bash`. -/
def tieRowA : AggRow := ⟨['a'], 3, 5, some "bash".toList⟩

/-- Second tied row of the witness conversation. -/
def tieRowB : AggRow := ⟨['a'], 3, 5, some "read-file".toList⟩

/-- Witness for C8 at a concrete two-row conversation with a tie. -/
theorem dominant_type_is_first_argmax_witness :
    (∃ r ∈ [tieRowA, tieRowB], r.file_path = ['a'] ∧ r.tool_type ≠ none) ∧
    (∃ t s, dominantToolType [tieRowA, tieRowB] ['a'] = some t ∧
      (t, s) ∈ toolTypeSums [tieRowA, tieRowB] ['a'] ∧
      (∀ p ∈ toolTypeSums [tieRowA, tieRowB] ['a'], p.2 ≤ s) ∧
      (toolTypeSums [tieRowA, tieRowB] ['a']).find? (fun p => decide (s ≤ p.2))
        = some (t, s)) :=
  ⟨by decide, dominant_type_is_first_argmax [tieRowA, tieRowB] ['a'] (by decide)⟩

/-! ## Record extraction (`4_extract_user_and_assistant_prompts.py`) -/

/-- A decoded JSON value, as `json.load` produces it. -/
inductive JVal where
  | null
  | bool (b : Bool)
  | num (n : Int)
  | str (s : List Char)
  | arr (elems : List JVal)
  | obj (fields : List (List Char × JVal))

/-- Python `dict.get(k)`: the value of key `k`, or `None` (here:
`Option.none`) when absent. -/
def jget (fields : List (List Char × JVal)) (k : List Char) : Option JVal :=
  (fields.find? (fun p => decide (p.1 = k))).map (fun p => p.2)

/-- Python `"\n".join(parts)`. -/
def joinNL : List (List Char) → List Char
  | [] => []
  | [x] => x
  | x :: xs => x ++ '\n' :: joinNL xs

/-- `normalize_content(content)`: a string is returned stripped; a list
accumulates the stripped non-empty contributions of its string items
and of its `{"type": "text", "text": ...}` dict items, joined by
newlines and stripped, `None` when no part contributed; every other
shape yields `None`. -/
def normalize_content : JVal → Option (List Char)
  | .str s => some (pystrip s)
  | .arr items =>
      let parts := items.foldl (fun acc it =>
        match it with
        | .str s => if pystrip s = [] then acc else acc ++ [pystrip s]
        | .obj f =>
            match jget f "type".toList with
            | some (.str tv) =>
                if tv = "text".toList then
                  match jget f "text".toList with
                  | some (.str txt) =>
                      if pystrip txt = [] then acc else acc ++ [pystrip txt]
                  | _ => acc
                else acc
            | _ => acc
        | _ => acc) []
      if parts = [] then none else some (pystrip (joinNL parts))
  | _ => none

/-- One extracted row: `(file_path, text, role)`. -/
def ExtractedRow : Type := List Char × List Char × List Char

/-- The body of the per-message loop of `extract_prompts_from_file`:
the rows (zero or one) emitted for one message.  A message whose shape
raises inside the loop is caught by the inner `try`/`except` and emits
nothing. -/
def rowsOfMsg (fid : List Char) (msg : JVal) : List ExtractedRow :=
  match msg with
  | .obj f =>
      match jget f "role".toList with
      | some (.str r) =>
          if r = "user".toList ∨ r = "assistant".toList then
            match normalize_content ((jget f "content".toList).getD (.str [])) with
            | some t => if t = [] then [] else [(fid, t, r)]
            | none => []
          else []
      | _ => []
  | _ => []

/-- An uncaught Python exception escaping `extract_prompts_from_file`. -/
inductive PyExc where
  | attributeError
  | typeError
  deriving DecidableEq

/-- Python iteration over the `messages` value: a list yields its
elements, a string yields its characters (as 1-character strings), a
dict yields its keys; any other value raises `TypeError`. -/
def iterMsgs : JVal → Option (List JVal)
  | .arr xs => some xs
  | .str s => some (s.map (fun c => JVal.str [c]))
  | .obj f => some (f.map (fun p => JVal.str p.1))
  | _ => none

/-- `extract_prompts_from_file(file_path)`.  The `try`/`except` covers
only `open`/`json.load` (`loaded = .error _` models a caught load
failure and returns `[]`).  The subsequent `data.get("request", {})`
and `request_obj.get("messages", [])` run outside any handler: on a
non-dict they raise an uncaught `AttributeError`, and a non-iterable
`messages` raises an uncaught `TypeError`. -/
def extract_prompts_from_file (fid : List Char) (loaded : Except Unit JVal) :
    Except PyExc (List ExtractedRow) :=
  match loaded with
  | .error _ => .ok []
  | .ok data =>
      match data with
      | .obj fields =>
          match (jget fields "request".toList).getD (.obj []) with
          | .obj rf =>
              match iterMsgs ((jget rf "messages".toList).getD (.arr [])) with
              | some msgs =>
                  .ok (msgs.foldl (fun acc m => acc ++ rowsOfMsg fid m) [])
              | none => .error .typeError
          | _ => .error .attributeError
      | _ => .error .attributeError

/-- The collection loop of `main`: `fut.result()` re-raises any
exception escaping a worker, which aborts the whole run; otherwise the
per-file row lists are concatenated. -/
def runBatch (files : List (List Char × Except Unit JVal)) :
    Except PyExc (List ExtractedRow) :=
  files.foldlM
    (fun acc f => (extract_prompts_from_file f.1 f.2).map (fun rs => acc ++ rs)) []

/-- C2 (code-bug evaluation).  A file whose content is the valid JSON
text `[]` decodes to a top-level array: `data.get("request", {})` runs
outside the `try`/`except` and raises an uncaught `AttributeError`,
which `fut.result()` re-raises in `main`, aborting the whole batch —
even when every other file is well-formed.  By contrast a file whose
load itself fails (third conjunct) is contained and yields `[]`. -/
theorem toplevel_array_aborts_batch :
    extract_prompts_from_file "f.json".toList (.ok (JVal.arr []))
        = .error PyExc.attributeError ∧
    runBatch [("g.json".toList, .ok (JVal.obj [])),
        ("f.json".toList, .ok (JVal.arr []))]
      = .error PyExc.attributeError ∧
    extract_prompts_from_file "f.json".toList (.error ()) = .ok [] :=
  ⟨rfl, rfl, rfl⟩

/-- C7 counterexample: trimming the one-space string yields the empty
string, and `normalize_content` returns that empty string — not absent
(`None`), as the claim requires. -/
theorem normalize_whitespace_returns_empty_string :
    pystrip [' '] = [] ∧
    normalize_content (JVal.str [' ']) = some [] ∧
    (some ([] : List Char)) ≠ (none : Option (List Char)) :=
  ⟨by decide, rfl, by intro h; cases h⟩

/-- C7 (amended): for string content, `normalize_content` returns
exactly the trimmed string — including the empty string (not absent)
when trimming empties it; the caller's truthiness test then treats the
empty string as no text, so no row is emitted for the message. -/
theorem normalize_str_returns_trimmed (s fid : List Char) :
    normalize_content (JVal.str s) = some (pystrip s) ∧
    (pystrip s = [] →
      rowsOfMsg fid (JVal.obj [("role".toList, JVal.str "user".toList),
        ("content".toList, JVal.str s)]) = []) := by
  refine ⟨rfl, ?_⟩
  intro h
  show (if pystrip s = [] then []
    else [(fid, pystrip s, "user".toList)] : List ExtractedRow) = []
  simp [h]

/-- Witness for C7 at the one-space content string. -/
theorem normalize_str_returns_trimmed_witness :
    pystrip [' '] = [] ∧
    rowsOfMsg ['f'] (JVal.obj [("role".toList, JVal.str "user".toList),
      ("content".toList, JVal.str [' '])]) = [] := by
  have h : pystrip [' '] = [] := by decide
  exact ⟨h, (normalize_str_returns_trimmed [' '] ['f']).2 h⟩

end TraceAnalysis
